import Mathlib

/-!
Verification development for `spotdl/download/ffmpeg.py`.

The file shallowly embeds the two functions of the module:

* `has_correct_version(skip_version_check, ffmpeg_path)` — queries the external
  tool with `-version` and applies a layered version-tolerance heuristic;
* `convert(downloaded_file_path, converted_file_path, ffmpeg_path, output_format)`
  — builds the per-format argument vector and runs the tool asynchronously.

External behaviour (subprocess spawning, captured output, exit codes) is passed
in explicitly (`SpawnResult`, `ProcResult`), and the subprocess launches the
code performs are collected in an effect list (`Eff`), so that claims about
"what is spawned and with which arguments" are statable.  Uncaught Python
exceptions are modelled as `none` / `Except.error` results.  Strings are
modelled as `List Char` (ASCII; the regex character classes `\w`, `\d`,
`[a-zA-Z]` are modelled over ASCII, which is the range the stripping class
`[a-zA-Z]` itself uses).  Python `float` parsing and the comparison with the
literal `4.2` are modelled over exact decimal rationals, following the spec's
stated "major.minor decimal parse" semantics for the version comparison.
-/

/-- Observable external effects of the module: the synchronous `-version`
query spawned by `has_correct_version`, and the conversion subprocess
spawned by `convert` (with the executable and the argument vector). -/
inductive Eff where
  | spawnVersionQuery
  | spawnConvert (exe : String) (args : List String)
  deriving DecidableEq

/-- Result of the `subprocess.Popen([ffmpeg_path, "-version"], ...)` call in
`has_correct_version`: either the spawn raises `FileNotFoundError`, or the
process runs and `communicate()` yields the two captured streams. -/
inductive SpawnResult where
  | notFound
  | ok (stdout stderr : List Char)

/-- Python exceptions that `convert` can let escape: `KeyError` from the
format-table lookup and `FileNotFoundError` from the subprocess spawn. -/
inductive PyExc where
  | keyError (key : String)
  | fileNotFoundError
  deriving DecidableEq

/-- Python regex `\w`, restricted to ASCII: letters, digits and underscore. -/
def isWordChar (c : Char) : Bool := c.isAlpha || c.isDigit || c = '_'

/-- The literal part of the version regex `ffmpeg version \w?(\d+\.)?(\d+)`. -/
def versionLiteral : List Char := "ffmpeg version ".data

/-- Backtracking match of the regex tail `(\d+\.)?(\d+)` at the head of `s`,
returning the consumed characters.  `\d+` is greedy and can only end at the
first non-digit, so the group `(\d+\.)?` matches exactly when the maximal
digit run is non-empty and is followed by a dot with at least one digit
after it; otherwise it backtracks to empty and `(\d+)` takes the run. -/
def matchNums (s : List Char) : Option (List Char) :=
  if s.takeWhile Char.isDigit = [] then none
  else if (s.dropWhile Char.isDigit).head? = some '.' then
    if (s.dropWhile Char.isDigit).tail.takeWhile Char.isDigit = [] then
      some (s.takeWhile Char.isDigit)
    else
      some (s.takeWhile Char.isDigit ++ '.' :: (s.dropWhile Char.isDigit).tail.takeWhile Char.isDigit)
  else some (s.takeWhile Char.isDigit)

/-- Backtracking match of `\w?(\d+\.)?(\d+)` at the head of `s`: the greedy
`\w?` first tries to consume one word character and match the numeric tail
after it; on failure it backtracks to consuming nothing. -/
def matchAfterLiteral (s : List Char) : Option (List Char) :=
  match s with
  | [] => none
  | c :: rest =>
      if isWordChar c then
        match matchNums rest with
        | some t => some (c :: t)
        | none => matchNums (c :: rest)
      else matchNums (c :: rest)

/-- Attempt of the full version pattern at the start of `s`; returns the
matched substring (Python `result.group(0)`). -/
def matchAt (s : List Char) : Option (List Char) :=
  if versionLiteral.isPrefixOf s then
    (matchAfterLiteral (s.drop versionLiteral.length)).map (fun t => versionLiteral ++ t)
  else none

/-- `re.search(r"ffmpeg version \w?(\d+\.)?(\d+)", output)`: the match at the
leftmost starting position where the pattern succeeds. -/
def searchVersion : List Char → Option (List Char)
  | [] => none
  | c :: rest =>
      match matchAt (c :: rest) with
      | some m => some m
      | none => searchVersion rest

/-- `re.sub(r"[a-zA-Z]", "", version_str)`: drop all ASCII letters. -/
def stripLetters (s : List Char) : List Char := s.filter (fun c => !c.isAlpha)

/-- The literal part of the fallback regex `Copyright \(c\) \d\d\d\d\-202\d`. -/
def copyrightLiteral : List Char := "Copyright (c) ".data

/-- Attempt of the copyright-date pattern at the start of `s`. -/
def copyrightMatchAt (s : List Char) : Bool :=
  copyrightLiteral.isPrefixOf s &&
    (match s.drop copyrightLiteral.length with
     | a :: b :: c :: d :: h :: x :: y :: z :: e :: _ =>
         a.isDigit && b.isDigit && c.isDigit && d.isDigit &&
           (h = '-') && (x = '2') && (y = '0') && (z = '2') && e.isDigit
     | _ => false)

/-- `re.search(r"Copyright \(c\) \d\d\d\d\-202\d", output) is not None`. -/
def copyrightSearch : List Char → Bool
  | [] => false
  | c :: rest => copyrightMatchAt (c :: rest) || copyrightSearch rest

/-- Numeric value of an ASCII digit. -/
def digitVal (c : Char) : ℕ := c.toNat - 48

/-- Decimal value of a digit run. -/
def digitsVal (l : List Char) : ℕ := l.foldl (fun a c => 10 * a + digitVal c) 0

/-- Continuation of a Python numeric `digitpart` (`digit (["_"] digit)*`):
`v` is the value accumulated so far and `n` the number of digits consumed.
A single underscore is allowed between two digits; it does not count as a
digit.  Stops (leaving the rest untouched) at the first character that can
extend the part no further. -/
def parseDigitPartAux (v n : ℕ) : List Char → ℕ × ℕ × List Char
  | [] => (v, n, [])
  | c :: rest =>
      if c.isDigit then parseDigitPartAux (10 * v + digitVal c) (n + 1) rest
      else if c = '_' then
        match rest with
        | [] => (v, n, [c])
        | d :: rest2 =>
            if d.isDigit then parseDigitPartAux (10 * v + digitVal d) (n + 1) rest2
            else (v, n, c :: d :: rest2)
      else (v, n, c :: rest)

/-- A Python numeric `digitpart` must begin with a digit. -/
def parseDigitPart (s : List Char) : Option (ℕ × ℕ × List Char) :=
  match s with
  | [] => none
  | c :: rest => if c.isDigit then some (parseDigitPartAux (digitVal c) 1 rest) else none

/-- Leading/trailing whitespace stripping performed by Python `float(str)`. -/
def pyStripWhitespace (s : List Char) : List Char :=
  ((s.dropWhile Char.isWhitespace).reverse.dropWhile Char.isWhitespace).reverse

/-- Body of Python `float(str)` after whitespace stripping: optional sign,
then `digitpart ["." [digitpart]] | "." digitpart`.  The exponent /
infinity / nan forms are not modelled: the strings this module feeds to
`float` come from `stripLetters` of a version match, which contains only
spaces, digits, dots and underscores.  The result is the exact decimal
value as a rational. -/
def pyFloatBody (t : List Char) : Option ℚ :=
  let sign : ℚ := if t.head? = some '-' then -1 else 1
  let t1 := if t.head? = some '+' ∨ t.head? = some '-' then t.tail else t
  if t1.head? = some '.' then
    match parseDigitPart t1.tail with
    | some (fv, fn, r3) => if r3 = [] then some (sign * ((fv : ℚ) / 10 ^ fn)) else none
    | none => none
  else
    match parseDigitPart t1 with
    | none => none
    | some (iv, _, r1) =>
        if r1 = [] then some (sign * (iv : ℚ))
        else if r1.head? = some '.' then
          if r1.tail = [] then some (sign * (iv : ℚ))
          else
            match parseDigitPart r1.tail with
            | some (fv, fn, r3) =>
                if r3 = [] then some (sign * ((iv : ℚ) + (fv : ℚ) / 10 ^ fn)) else none
            | none => none
        else none

/-- Python `float(str)` (decimal fragment), `none` meaning `ValueError`. -/
def pyFloat (s : List Char) : Option ℚ :=
  pyFloatBody (pyStripWhitespace s)

/-- The part of `has_correct_version` that inspects the combined output text
(the code after `skip_version_check` has been found false): try the version
regex, strip letters from the whole match and parse it as a float, compare
with `4.2`; if the regex does not match, fall back to the copyright-date
search.  `none` models the uncaught `ValueError` that `float` raises when
the stripped match does not parse. -/
def versionCheckOutput (output : List Char) : Option Bool :=
  match searchVersion output with
  | some version_str0 =>
      match pyFloat (stripLetters version_str0) with
      | none => none
      | some version => if version < 42 / 10 then some false else some true
  | none => if copyrightSearch output then some true else some false

/-- `has_correct_version(skip_version_check, ffmpeg_path)`.  The `Popen` of
`[ffmpeg_path, "-version"]` is the first statement of the function body, so
the version-query spawn is attempted unconditionally — in particular before
the `skip_version_check` test — and is recorded in the effect list in every
branch.  On `FileNotFoundError` the function prints a warning and returns
`False`.  Otherwise `output` is the concatenation of the two captured
streams (`"".join(process.communicate())`).  The result is `none` when the
body raises an uncaught exception.  (The `print(..., file=sys.stderr)`
warnings of this function are not modelled; no claim refers to them.) -/
def has_correct_version (skip_version_check : Bool) (spawn : SpawnResult) :
    Option Bool × List Eff :=
  match spawn with
  | .notFound => (some false, [Eff.spawnVersionQuery])
  | .ok stdout stderr =>
      if skip_version_check then (some true, [Eff.spawnVersionQuery])
      else (versionCheckOutput (stdout ++ stderr), [Eff.spawnVersionQuery])

/-- Python `str.endswith(suffix)`. -/
def pyEndsWith (s suffix : String) : Bool := suffix.data.isSuffixOf s.data

/-- The `formats` dictionary of `convert`, indexed by the requested output
format.  The entry for `"opus"` depends on the (absolute) source path: if it
already ends in `".opus"` the video stream is stripped and the audio is
stream-copied, otherwise the opus encoder is selected.  An unknown key
yields `none`, modelling the `KeyError` a Python dict lookup raises. -/
def formatsLookup (downloaded_file_path : String) (f : String) : Option (List String) :=
  if f = "mp3" then some ["-codec:a", "libmp3lame"]
  else if f = "flac" then some ["-codec:a", "flac"]
  else if f = "ogg" then some ["-codec:a", "libvorbis"]
  else if f = "opus" then
    some (if pyEndsWith downloaded_file_path ".opus" then ["-vn", "-c:a", "copy"]
          else ["-c:a", "libopus"])
  else if f = "m4a" then some ["-codec:a", "aac", "-vn"]
  else if f = "wav" then some []
  else none

/-- Codec-argument selection of `convert`: `None` defaults to the `"mp3"`
profile, any other value is looked up in the `formats` dictionary. -/
def selectFormatCommand (downloaded_file_path : String) (output_format : Option String) :
    Option (List String) :=
  match output_format with
  | none => formatsLookup downloaded_file_path "mp3"
  | some f => formatsLookup downloaded_file_path f

/-- Quality-argument selection of `convert` (the comparisons are against the
raw `output_format` argument, so `None` falls into the final branch). -/
def outputQualityCommand (output_format : Option String) : List String :=
  if output_format = some "ogg" then ["-q:a", "5"]
  else if output_format = some "m4a" then []
  else ["-q:a", "0"]

/-- Lowercase hexadecimal digit, as used by Python `\xhh` byte escapes. -/
def hexDigitChar (n : ℕ) : Char := if n < 10 then Char.ofNat (48 + n) else Char.ofNat (87 + n)

/-- Python `str(bytes)`, i.e. the `repr` of a bytes object (`b'...'`):
double quotes are used when the data contains a single quote but no double
quote; backslash, the active quote and `\t`/`\n`/`\r` are escaped; other
printable ASCII bytes appear verbatim; everything else becomes `\xhh`. -/
def pyBytesRepr (bs : List UInt8) : List Char :=
  let q : Char :=
    if bs.contains 39 && !(bs.contains 34) then Char.ofNat 34 else Char.ofNat 39
  let esc : UInt8 → List Char := fun b =>
    if b = 92 then [Char.ofNat 92, Char.ofNat 92]
    else if b.toNat = q.toNat then [Char.ofNat 92, q]
    else if b = 9 then [Char.ofNat 92, 't']
    else if b = 10 then [Char.ofNat 92, 'n']
    else if b = 13 then [Char.ofNat 92, 'r']
    else if 32 ≤ b.toNat && b.toNat ≤ 126 then [Char.ofNat b.toNat]
    else [Char.ofNat 92, 'x', hexDigitChar (b.toNat / 16), hexDigitChar (b.toNat % 16)]
  'b' :: q :: (bs.flatMap esc ++ [q])

/-- The diagnostic message `convert` prints to stderr on a non-zero exit
code: the f-string concatenation of the exit code, the space-joined
argument vector (`" ".join(arguments)`) and the combined output. -/
def failureMessage (returncode : Int) (arguments : List String) (out : List Char) : List Char :=
  "ffmpeg returned an error (".data ++ (toString returncode).data ++
    ")\nffmpeg arguments: \"".data ++ (String.intercalate " " arguments).data ++
    "\"\nffmpeg gave this output:\n=====\n".data ++ out ++ "\n=====\n".data

/-- Behaviour of the conversion subprocess, supplied by the environment:
either `create_subprocess_exec` raises `FileNotFoundError`, or the process
runs to completion with the two captured byte streams and an exit code. -/
inductive ProcResult where
  | spawnFailure
  | finished (stdout stderr : List UInt8) (returncode : Int)

/-- Result of one `convert` call: the returned value (or escaped exception),
the messages printed to stderr, and the subprocess spawns performed. -/
structure ConvertRun where
  result : Except PyExc Bool
  stderrPrints : List (List Char)
  spawns : List Eff

/-- `convert(downloaded_file_path, converted_file_path, ffmpeg_path, output_format)`.

The two path arguments are taken here as the already-resolved absolute path
strings (the source applies `str(p.absolute())` first; filesystem resolution
is outside this module and the claims quantify over resolved paths).  The
function: looks up the codec arguments (a failed lookup raises `KeyError`
before anything is spawned), selects the quality arguments, defaults a
missing tool path to `"ffmpeg"`, assembles

  `["-i", src] ++ codec ++ ["-abr", "true"] ++ quality ++ ["-v", "debug", dst]`,

spawns `<tool> <arguments>` (a spawn failure propagates `FileNotFoundError`
— `convert` has no `try`/`except`), joins the two captured byte streams and
takes `str` of the result when either is non-empty, and finally returns
`False` (printing the diagnostic message) on a non-zero exit code and
`True` otherwise. -/
def convert (downloaded_file_path converted_file_path : String)
    (ffmpeg_path : Option String) (output_format : Option String)
    (proc : ProcResult) : ConvertRun :=
  match selectFormatCommand downloaded_file_path output_format with
  | none =>
      { result := .error (.keyError (output_format.getD "mp3")),
        stderrPrints := [], spawns := [] }
  | some output_format_command =>
      let output_quality_command := outputQualityCommand output_format
      let ffmpegExe := ffmpeg_path.getD "ffmpeg"
      let arguments : List String :=
        ["-i", downloaded_file_path] ++ output_format_command ++
          ["-abr", "true"] ++ output_quality_command ++ ["-v", "debug", converted_file_path]
      match proc with
      | .spawnFailure =>
          { result := .error .fileNotFoundError,
            stderrPrints := [],
            spawns := [Eff.spawnConvert ffmpegExe arguments] }
      | .finished stdout stderr returncode =>
          let out : List Char :=
            if !stdout.isEmpty || !stderr.isEmpty then pyBytesRepr (stdout ++ stderr) else []
          { result := .ok (if returncode ≠ 0 then false else true),
            stderrPrints :=
              if returncode ≠ 0 then [failureMessage returncode arguments out] else [],
            spawns := [Eff.spawnConvert ffmpegExe arguments] }

/-- The two digit-run shapes a `(\d+\.)?(\d+)` match can take. -/
def NumsShape (t : List Char) : Prop :=
  ∃ ds, ds ≠ [] ∧ (∀ c ∈ ds, c.isDigit = true) ∧
    (t = ds ∨ ∃ es, es ≠ [] ∧ (∀ c ∈ es, c.isDigit = true) ∧ t = ds ++ '.' :: es)

/-! ### Character-class and list helper lemmas -/

theorem isDigit_toNat {c : Char} (h : c.isDigit = true) :
    48 ≤ c.val.toNat ∧ c.val.toNat ≤ 57 := by
  simp only [Char.isDigit, Bool.and_eq_true, decide_eq_true_eq] at h
  exact ⟨h.1, h.2⟩

theorem ne_of_isDigit_ne {c d : Char} (h : c.isDigit = true) (hd : d.isDigit = false) :
    c ≠ d := by
  intro he
  rw [he] at h
  rw [h] at hd
  exact (Bool.true_eq_false.mp hd).elim

theorem isAlpha_eq_false_of_isDigit {c : Char} (h : c.isDigit = true) : c.isAlpha = false := by
  have h2 := isDigit_toNat h
  cases hA : c.isAlpha with
  | false => rfl
  | true =>
      exfalso
      rcases Bool.or_eq_true_iff.mp hA with hu | hl
      · simp only [Char.isUpper, Bool.and_eq_true, decide_eq_true_eq] at hu
        have h65 : (65 : UInt32).toNat ≤ c.val.toNat := hu.1
        have he : (65 : UInt32).toNat = 65 := by decide
        omega
      · simp only [Char.isLower, Bool.and_eq_true, decide_eq_true_eq] at hl
        have h97 : (97 : UInt32).toNat ≤ c.val.toNat := hl.1
        have he : (97 : UInt32).toNat = 97 := by decide
        omega

theorem isWhitespace_eq_false_of_isDigit {c : Char} (h : c.isDigit = true) :
    c.isWhitespace = false := by
  have h1 : c ≠ ' ' := ne_of_isDigit_ne h (by decide)
  have h2 : c ≠ '\t' := ne_of_isDigit_ne h (by decide)
  have h3 : c ≠ '\r' := ne_of_isDigit_ne h (by decide)
  have h4 : c ≠ '\n' := ne_of_isDigit_ne h (by decide)
  simp [Char.isWhitespace, h1, h2, h3, h4]

theorem isWordChar_of_isDigit {c : Char} (h : c.isDigit = true) : isWordChar c = true := by
  simp [isWordChar, h]

theorem isWordChar_of_isAlpha {c : Char} (h : c.isAlpha = true) : isWordChar c = true := by
  simp [isWordChar, h]

theorem isPrefixOf_append_self (l t : List Char) : l.isPrefixOf (l ++ t) = true := by
  induction l with
  | nil => simp [List.isPrefixOf]
  | cons a l ih => simp [List.isPrefixOf, ih]

theorem exists_of_isPrefixOf : ∀ {l s : List Char}, l.isPrefixOf s = true → ∃ t, s = l ++ t
  | [], s, _ => ⟨s, rfl⟩
  | a :: l, [], h => by simp [List.isPrefixOf] at h
  | a :: l, b :: s, h => by
      simp only [List.isPrefixOf, Bool.and_eq_true, beq_iff_eq] at h
      obtain ⟨t, ht⟩ := exists_of_isPrefixOf h.2
      exact ⟨t, by simp [h.1, ht]⟩

theorem takeWhile_append_of_all {p : Char → Bool} :
    ∀ (ds rest : List Char), (∀ c ∈ ds, p c = true) →
      (∀ c, rest.head? = some c → p c = false) →
      (ds ++ rest).takeWhile p = ds ∧ (ds ++ rest).dropWhile p = rest
  | [], rest, _, hr => by
      cases rest with
      | nil => exact ⟨rfl, rfl⟩
      | cons c r => simp [List.takeWhile_cons, List.dropWhile_cons, hr c rfl]
  | d :: ds, rest, hd, hr => by
      have hpd : p d = true := hd d (List.mem_cons_self _ _)
      have ih := takeWhile_append_of_all ds rest (fun c hc => hd c (List.mem_cons_of_mem _ hc)) hr
      simp [List.takeWhile_cons, List.dropWhile_cons, hpd, ih.1, ih.2]

theorem pyStripWhitespace_eq {ws mid : List Char}
    (hws : ∀ c ∈ ws, c.isWhitespace = true)
    (hhead : ∀ c, mid.head? = some c → c.isWhitespace = false)
    (hlast : ∀ c, mid.getLast? = some c → c.isWhitespace = false) :
    pyStripWhitespace (ws ++ mid) = mid := by
  have h1 : (ws ++ mid).dropWhile Char.isWhitespace = mid := by
    induction ws with
    | nil =>
        cases mid with
        | nil => rfl
        | cons c r => simp [List.dropWhile_cons, hhead c rfl]
    | cons a ws ih =>
        have ha := hws a (List.mem_cons_self _ _)
        simpa [List.dropWhile_cons, ha] using ih (fun c hc => hws c (List.mem_cons_of_mem _ hc))
  unfold pyStripWhitespace
  rw [h1]
  have h2 : mid.reverse.dropWhile Char.isWhitespace = mid.reverse := by
    cases hrev : mid.reverse with
    | nil => rfl
    | cons a l =>
        have ha : mid.getLast? = some a := by
          rw [← List.head?_reverse, hrev]
          rfl
        simp [List.dropWhile_cons, hlast a ha]
  rw [h2, List.reverse_reverse]

/-! ### Evaluation of the version regex on banner-shaped outputs -/

theorem matchNums_digits_dot {ds es rest : List Char}
    (hds : ds ≠ []) (h1 : ∀ c ∈ ds, c.isDigit = true)
    (hes : es ≠ []) (h2 : ∀ c ∈ es, c.isDigit = true)
    (hrest : ∀ c, rest.head? = some c → c.isDigit = false) :
    matchNums (ds ++ '.' :: (es ++ rest)) = some (ds ++ '.' :: es) := by
  have hdot : ∀ c, ('.' :: (es ++ rest)).head? = some c → c.isDigit = false := by
    intro c hc
    rw [List.head?_cons, Option.some.injEq] at hc
    rw [← hc]
    decide
  have t1 := takeWhile_append_of_all ds ('.' :: (es ++ rest)) h1 hdot
  have hes_head : ∀ c, (es ++ rest).head? = some c → c.isDigit = true := by
    intro c hc
    cases es with
    | nil => exact absurd rfl hes
    | cons e es' =>
        rw [List.cons_append, List.head?_cons, Option.some.injEq] at hc
        exact hc ▸ h2 e (List.mem_cons_self _ _)
  have t2 := takeWhile_append_of_all es rest h2 hrest
  have hes' : (es ++ rest).takeWhile Char.isDigit ≠ [] := by
    rw [t2.1]; exact hes
  unfold matchNums
  rw [t1.1, t1.2, if_neg hds, List.head?_cons, List.tail_cons, if_pos rfl, t2.1, if_neg hes]

theorem matchAfterLiteral_banner {optL : Option Char} {ds es rest : List Char}
    (hL : ∀ L ∈ optL, L.isAlpha = true)
    (hds : ds ≠ []) (h1 : ∀ c ∈ ds, c.isDigit = true)
    (hes : es ≠ []) (h2 : ∀ c ∈ es, c.isDigit = true)
    (hrest : ∀ c, rest.head? = some c → c.isDigit = false) :
    matchAfterLiteral (optL.toList ++ (ds ++ '.' :: (es ++ rest))) =
      some (optL.toList ++ (ds ++ '.' :: es)) := by
  cases optL with
  | some L =>
      have hw : isWordChar L = true := isWordChar_of_isAlpha (hL L rfl)
      simp only [Option.toList_some, List.cons_append, List.nil_append]
      rw [matchAfterLiteral, if_pos hw,
        matchNums_digits_dot hds h1 hes h2 hrest]
  | none =>
      simp only [Option.toList_none, List.nil_append]
      cases ds with
      | nil => exact absurd rfl hds
      | cons d ds' =>
          have hd : d.isDigit = true := h1 d (List.mem_cons_self _ _)
          have hw : isWordChar d = true := isWordChar_of_isDigit hd
          rw [List.cons_append, matchAfterLiteral, if_pos hw]
          cases ds' with
          | nil =>
              have hn : matchNums ('.' :: (es ++ rest)) = none := by
                unfold matchNums
                have ht : ('.' :: (es ++ rest)).takeWhile Char.isDigit = [] := by
                  rw [List.takeWhile_cons, if_neg]
                  simp
                rw [if_pos ht]
              rw [List.nil_append, hn]
              have := @matchNums_digits_dot [d] es rest
                (by simp) (by simpa using hd) hes h2 hrest
              simpa using this
          | cons d2 ds'' =>
              have hds' : d2 :: ds'' ≠ [] := by simp
              have h1' : ∀ c ∈ d2 :: ds'', c.isDigit = true :=
                fun c hc => h1 c (List.mem_cons_of_mem _ hc)
              rw [matchNums_digits_dot hds' h1' hes h2 hrest]
              simp

theorem matchAt_literal {x t : List Char} (h : matchAfterLiteral x = some t) :
    matchAt (versionLiteral ++ x) = some (versionLiteral ++ t) := by
  unfold matchAt
  rw [if_pos (isPrefixOf_append_self _ _), List.drop_left, h]
  rfl

theorem searchVersion_literal {x t : List Char} (h : matchAfterLiteral x = some t) :
    searchVersion (versionLiteral ++ x) = some (versionLiteral ++ t) := by
  have hcons : versionLiteral ++ x = 'f' :: ("fmpeg version ".data ++ x) := rfl
  rw [hcons, searchVersion, ← hcons, matchAt_literal h]

theorem stripLetters_append (l₁ l₂ : List Char) :
    stripLetters (l₁ ++ l₂) = stripLetters l₁ ++ stripLetters l₂ :=
  List.filter_append l₁ l₂

theorem stripLetters_of_digits {l : List Char} (h : ∀ c ∈ l, c.isDigit = true) :
    stripLetters l = l := by
  unfold stripLetters
  rw [List.filter_eq_self]
  intro c hc
  simp [isAlpha_eq_false_of_isDigit (h c hc)]

theorem stripLetters_versionLiteral : stripLetters versionLiteral = [' ', ' '] := by decide

theorem parseDigitPartAux_cons_digit {c : Char} (hc : c.isDigit = true) (v n : ℕ)
    (rest : List Char) :
    parseDigitPartAux v n (c :: rest) = parseDigitPartAux (10 * v + digitVal c) (n + 1) rest := by
  rw [parseDigitPartAux.eq_def]
  simp only [hc, if_true]

theorem parseDigitPartAux_stop {c : Char} (hc : c.isDigit = false) (hc2 : c ≠ '_') (v n : ℕ)
    (rest : List Char) :
    parseDigitPartAux v n (c :: rest) = (v, n, c :: rest) := by
  rw [parseDigitPartAux.eq_def]
  simp only [hc, if_false, if_neg]
  simp [hc2]

theorem parseDigitPartAux_digits {ds : List Char} (h : ∀ c ∈ ds, c.isDigit = true)
    {rest : List Char}
    (hrest : rest = [] ∨ ∃ c r, rest = c :: r ∧ c.isDigit = false ∧ c ≠ '_') :
    ∀ (v n : ℕ), parseDigitPartAux v n (ds ++ rest) =
      (ds.foldl (fun a c => 10 * a + digitVal c) v, n + ds.length, rest) := by
  induction ds with
  | nil =>
      intro v n
      rcases hrest with hrest | ⟨c, r, hrest, hc1, hc2⟩
      · subst hrest; rfl
      · subst hrest
        rw [List.nil_append, parseDigitPartAux_stop hc1 hc2]
        simp
  | cons d ds ih =>
      intro v n
      have hd : d.isDigit = true := h d (List.mem_cons_self _ _)
      rw [List.cons_append, parseDigitPartAux_cons_digit hd,
        ih (fun c hc => h c (List.mem_cons_of_mem _ hc)) _ _]
      simp only [List.foldl_cons, List.length_cons, Prod.mk.injEq, and_true, true_and]
      omega

theorem parseDigitPart_digits {ds : List Char} (hds : ds ≠ [])
    (h : ∀ c ∈ ds, c.isDigit = true) {rest : List Char}
    (hrest : rest = [] ∨ ∃ c r, rest = c :: r ∧ c.isDigit = false ∧ c ≠ '_') :
    parseDigitPart (ds ++ rest) = some (digitsVal ds, ds.length, rest) := by
  cases ds with
  | nil => exact absurd rfl hds
  | cons d ds' =>
      have hd : d.isDigit = true := h d (List.mem_cons_self _ _)
      rw [List.cons_append, parseDigitPart, if_pos hd,
        parseDigitPartAux_digits (fun c hc => h c (List.mem_cons_of_mem _ hc)) hrest _ _]
      simp only [digitsVal, List.foldl_cons, List.length_cons]
      have he : digitVal d = 10 * 0 + digitVal d := by omega
      rw [← he, Nat.add_comm 1 ds'.length]

theorem pyFloatBody_digits_dot {ds es : List Char} (hds : ds ≠ [])
    (h1 : ∀ c ∈ ds, c.isDigit = true) (hes : es ≠ [])
    (h2 : ∀ c ∈ es, c.isDigit = true) :
    pyFloatBody (ds ++ '.' :: es) =
      some ((digitsVal ds : ℚ) + (digitsVal es : ℚ) / 10 ^ es.length) := by
  obtain ⟨d, ds', rfl⟩ : ∃ d ds', ds = d :: ds' := by
    cases ds with
    | nil => exact absurd rfl hds
    | cons d ds' => exact ⟨_, _, rfl⟩
  have hd : d.isDigit = true := h1 d (List.mem_cons_self _ _)
  have hm : d ≠ '-' := ne_of_isDigit_ne hd (by decide)
  have hp : d ≠ '+' := ne_of_isDigit_ne hd (by decide)
  have hdot : d ≠ '.' := ne_of_isDigit_ne hd (by decide)
  have hparse1 : parseDigitPart (d :: (ds' ++ '.' :: es)) =
      some (digitsVal (d :: ds'), (d :: ds').length, '.' :: es) := by
    have := parseDigitPart_digits hds h1 (Or.inr ⟨'.', es, rfl, by decide, by decide⟩)
    simpa using this
  have hparse2 : parseDigitPart es = some (digitsVal es, es.length, []) := by
    have := parseDigitPart_digits hes h2 (Or.inl rfl)
    simpa using this
  simp only [pyFloatBody, List.cons_append, List.head?_cons, Option.some.injEq]
  rw [if_neg hm, if_neg (by simp [hp, hm] : ¬(d = '+' ∨ d = '-'))]
  rw [if_neg (by simp [hdot] : ¬(d :: (ds' ++ '.' :: es)).head? = some '.')]
  rw [hparse1]
  simp only [List.cons_append]
  rw [if_pos (show ('.' :: es).head? = some '.' from rfl), List.tail_cons, if_neg hes, hparse2]
  simp

theorem pyFloatBody_digits {ds : List Char} (hds : ds ≠ [])
    (h1 : ∀ c ∈ ds, c.isDigit = true) :
    pyFloatBody ds = some ((digitsVal ds : ℚ)) := by
  obtain ⟨d, ds', rfl⟩ : ∃ d ds', ds = d :: ds' := by
    cases ds with
    | nil => exact absurd rfl hds
    | cons d ds' => exact ⟨_, _, rfl⟩
  have hd : d.isDigit = true := h1 d (List.mem_cons_self _ _)
  have hm : d ≠ '-' := ne_of_isDigit_ne hd (by decide)
  have hp : d ≠ '+' := ne_of_isDigit_ne hd (by decide)
  have hdot : d ≠ '.' := ne_of_isDigit_ne hd (by decide)
  have hparse1 : parseDigitPart (d :: ds') =
      some (digitsVal (d :: ds'), (d :: ds').length, []) := by
    have := parseDigitPart_digits hds h1 (Or.inl rfl)
    simpa using this
  simp only [pyFloatBody, List.head?_cons, Option.some.injEq]
  rw [if_neg hm, if_neg (by simp [hp, hm] : ¬(d = '+' ∨ d = '-'))]
  rw [if_neg (by simp [hdot] : ¬(d :: ds').head? = some '.')]
  rw [hparse1]
  simp

theorem pyFloat_of_numsShape {pre t : List Char}
    (hpre : pre = [] ∨ ∃ p, pre = [p] ∧ p.isDigit = true)
    (ht : NumsShape t) :
    ∃ q, pyFloat ([' ', ' '] ++ (pre ++ t)) = some q := by
  obtain ⟨ds, hds, h1, hcase⟩ := ht
  obtain hpre | ⟨p, rfl, hp⟩ := hpre
  · subst hpre
    rw [List.nil_append]
    rcases hcase with rfl | ⟨es, hes, h2, rfl⟩
    · refine ⟨digitsVal t, ?_⟩
      unfold pyFloat
      rw [pyStripWhitespace_eq (by decide)
        (fun c hc => by
          cases t with
          | nil => exact absurd rfl hds
          | cons d ds' =>
              rw [List.head?_cons, Option.some.injEq] at hc
              exact hc ▸ isWhitespace_eq_false_of_isDigit (h1 d (List.mem_cons_self _ _)))
        (fun c hc => isWhitespace_eq_false_of_isDigit (h1 c (List.mem_of_mem_getLast? hc)))]
      exact pyFloatBody_digits hds h1
    · refine ⟨(digitsVal ds : ℚ) + (digitsVal es : ℚ) / 10 ^ es.length, ?_⟩
      unfold pyFloat
      rw [pyStripWhitespace_eq (by decide)
        (fun c hc => by
          cases ds with
          | nil => exact absurd rfl hds
          | cons d ds' =>
              rw [List.cons_append, List.head?_cons, Option.some.injEq] at hc
              exact hc ▸ isWhitespace_eq_false_of_isDigit (h1 d (List.mem_cons_self _ _)))
        (fun c hc => by
          rw [List.getLast?_append_of_ne_nil _ (by simp),
            show ('.' :: es) = ['.'] ++ es from rfl,
            List.getLast?_append_of_ne_nil _ hes] at hc
          exact isWhitespace_eq_false_of_isDigit (h2 c (List.mem_of_mem_getLast? hc)))]
      exact pyFloatBody_digits_dot hds h1 hes h2
  · -- leading digit p from the optional word character joins the digit run
    rcases hcase with rfl | ⟨es, hes, h2, rfl⟩
    · have hds2 : p :: t ≠ [] := by simp
      have h12 : ∀ c ∈ p :: t, c.isDigit = true := by
        intro c hc
        rcases List.mem_cons.mp hc with rfl | hc
        · exact hp
        · exact h1 c hc
      refine ⟨digitsVal (p :: t), ?_⟩
      unfold pyFloat
      rw [show ([p] ++ t : List Char) = p :: t from rfl]
      rw [pyStripWhitespace_eq (by decide)
        (fun c hc => by
          rw [List.head?_cons, Option.some.injEq] at hc
          exact hc ▸ isWhitespace_eq_false_of_isDigit hp)
        (fun c hc => isWhitespace_eq_false_of_isDigit (h12 c (List.mem_of_mem_getLast? hc)))]
      exact pyFloatBody_digits hds2 h12
    · have hds2 : p :: ds ≠ [] := by simp
      have h12 : ∀ c ∈ p :: ds, c.isDigit = true := by
        intro c hc
        rcases List.mem_cons.mp hc with rfl | hc
        · exact hp
        · exact h1 c hc
      refine ⟨(digitsVal (p :: ds) : ℚ) + (digitsVal es : ℚ) / 10 ^ es.length, ?_⟩
      unfold pyFloat
      rw [show ([p] ++ (ds ++ '.' :: es) : List Char) = (p :: ds) ++ '.' :: es from rfl]
      rw [pyStripWhitespace_eq (by decide)
        (fun c hc => by
          rw [List.cons_append, List.head?_cons, Option.some.injEq] at hc
          exact hc ▸ isWhitespace_eq_false_of_isDigit hp)
        (fun c hc => by
          rw [List.getLast?_append_of_ne_nil _ (by simp),
            show ('.' :: es) = ['.'] ++ es from rfl,
            List.getLast?_append_of_ne_nil _ hes] at hc
          exact isWhitespace_eq_false_of_isDigit (h2 c (List.mem_of_mem_getLast? hc)))]
      exact pyFloatBody_digits_dot hds2 h12 hes h2

theorem pyFloat_banner_value {ds es : List Char} (hds : ds ≠ [])
    (h1 : ∀ c ∈ ds, c.isDigit = true) (hes : es ≠ [])
    (h2 : ∀ c ∈ es, c.isDigit = true) :
    pyFloat ([' ', ' '] ++ (ds ++ '.' :: es)) =
      some ((digitsVal ds : ℚ) + (digitsVal es : ℚ) / 10 ^ es.length) := by
  unfold pyFloat
  rw [pyStripWhitespace_eq (by decide)
    (fun c hc => by
      cases ds with
      | nil => exact absurd rfl hds
      | cons d ds' =>
          rw [List.cons_append, List.head?_cons, Option.some.injEq] at hc
          exact hc ▸ isWhitespace_eq_false_of_isDigit (h1 d (List.mem_cons_self _ _)))
    (fun c hc => by
      rw [List.getLast?_append_of_ne_nil _ (by simp),
        show ('.' :: es) = ['.'] ++ es from rfl,
        List.getLast?_append_of_ne_nil _ hes] at hc
      exact isWhitespace_eq_false_of_isDigit (h2 c (List.mem_of_mem_getLast? hc)))]
  exact pyFloatBody_digits_dot hds h1 hes h2

theorem stripLetters_banner {optL : Option Char} {ds es : List Char}
    (hL : ∀ L ∈ optL, L.isAlpha = true)
    (h1 : ∀ c ∈ ds, c.isDigit = true) (h2 : ∀ c ∈ es, c.isDigit = true) :
    stripLetters (versionLiteral ++ (optL.toList ++ (ds ++ '.' :: es))) =
      [' ', ' '] ++ (ds ++ '.' :: es) := by
  rw [stripLetters_append, stripLetters_append, stripLetters_versionLiteral]
  have hopt : stripLetters optL.toList = [] := by
    cases optL with
    | none => rfl
    | some L =>
        have := hL L rfl
        simp [stripLetters, this]
  have hdot : stripLetters (ds ++ '.' :: es) = ds ++ '.' :: es := by
    rw [stripLetters_append, stripLetters_of_digits h1]
    have : stripLetters ('.' :: es) = '.' :: stripLetters es := by
      simp [stripLetters]
    rw [this, stripLetters_of_digits h2]
  rw [hopt, hdot, List.nil_append]

theorem versionCheckOutput_eq_of_search {out g : List Char} (h : searchVersion out = some g) :
    versionCheckOutput out =
      match pyFloat (stripLetters g) with
      | none => none
      | some version => if version < 42 / 10 then some false else some true := by
  unfold versionCheckOutput
  rw [h]

theorem versionCheckOutput_banner {optL : Option Char} {majDs minDs rest : List Char}
    (hL : ∀ L ∈ optL, L.isAlpha = true)
    (hmaj : majDs ≠ []) (hmajd : ∀ c ∈ majDs, c.isDigit = true)
    (hmin : minDs ≠ []) (hmind : ∀ c ∈ minDs, c.isDigit = true)
    (hrest : ∀ c, rest.head? = some c → c.isDigit = false) :
    versionCheckOutput (versionLiteral ++ (optL.toList ++ (majDs ++ '.' :: (minDs ++ rest)))) =
      some (decide ((42 : ℚ) / 10 ≤ (digitsVal majDs : ℚ) +
        (digitsVal minDs : ℚ) / 10 ^ minDs.length)) := by
  have hmatch := matchAfterLiteral_banner hL hmaj hmajd hmin hmind hrest
  rw [versionCheckOutput_eq_of_search (searchVersion_literal hmatch)]
  rw [stripLetters_banner hL hmajd hmind,
    pyFloat_banner_value hmaj hmajd hmin hmind]
  rcases lt_or_le ((digitsVal majDs : ℚ) + (digitsVal minDs : ℚ) / 10 ^ minDs.length)
      ((42 : ℚ) / 10) with h | h
  · simp [h, decide_eq_false (not_le.mpr h)]
  · simp [if_neg (not_lt.mpr h), decide_eq_true h]

theorem matchNums_shape {s t : List Char} (h : matchNums s = some t) : NumsShape t := by
  unfold matchNums at h
  by_cases h1 : s.takeWhile Char.isDigit = []
  · rw [if_pos h1] at h
    exact absurd h (by simp)
  · rw [if_neg h1] at h
    by_cases h2 : (s.dropWhile Char.isDigit).head? = some '.'
    · rw [if_pos h2] at h
      by_cases h3 : (s.dropWhile Char.isDigit).tail.takeWhile Char.isDigit = []
      · rw [if_pos h3] at h
        rw [Option.some.injEq] at h
        exact ⟨s.takeWhile Char.isDigit, h1,
          fun c hc => List.mem_takeWhile_imp hc, Or.inl h.symm⟩
      · rw [if_neg h3] at h
        rw [Option.some.injEq] at h
        exact ⟨s.takeWhile Char.isDigit, h1,
          fun c hc => List.mem_takeWhile_imp hc,
          Or.inr ⟨(s.dropWhile Char.isDigit).tail.takeWhile Char.isDigit, h3,
            fun c hc => List.mem_takeWhile_imp hc, h.symm⟩⟩
    · rw [if_neg h2] at h
      rw [Option.some.injEq] at h
      exact ⟨s.takeWhile Char.isDigit, h1,
        fun c hc => List.mem_takeWhile_imp hc, Or.inl h.symm⟩

theorem matchAfterLiteral_shape {s t : List Char} (h : matchAfterLiteral s = some t) :
    NumsShape t ∨ ∃ c t', isWordChar c = true ∧ t = c :: t' ∧ NumsShape t' := by
  cases s with
  | nil =>
      rw [matchAfterLiteral] at h
      exact absurd h (by simp)
  | cons c rest =>
      rw [matchAfterLiteral] at h
      by_cases hw : isWordChar c
      · rw [if_pos hw] at h
        cases hm : matchNums rest with
        | some t' =>
            rw [hm] at h
            simp only [Option.some.injEq] at h
            exact Or.inr ⟨c, t', hw, h.symm, matchNums_shape hm⟩
        | none =>
            rw [hm] at h
            exact Or.inl (matchNums_shape h)
      · rw [if_neg hw] at h
        exact Or.inl (matchNums_shape h)

theorem searchVersion_shape : ∀ {out g : List Char}, searchVersion out = some g →
    ∃ t s, g = versionLiteral ++ t ∧ matchAfterLiteral s = some t
  | [], g, h => absurd h (by simp [searchVersion])
  | c :: rest, g, h => by
      rw [searchVersion] at h
      cases hm : matchAt (c :: rest) with
      | some m =>
          rw [hm] at h
          simp only [Option.some.injEq] at h
          unfold matchAt at hm
          by_cases hp : versionLiteral.isPrefixOf (c :: rest)
          · rw [if_pos hp] at hm
            cases hma : matchAfterLiteral ((c :: rest).drop versionLiteral.length) with
            | some t =>
                rw [hma] at hm
                simp only [Option.map_some', Option.some.injEq] at hm
                exact ⟨t, _, by rw [← h, ← hm], hma⟩
            | none =>
                rw [hma] at hm
                simp at hm
          · rw [if_neg hp] at hm
            exact absurd hm (by simp)
      | none =>
          rw [hm] at h
          exact searchVersion_shape h

theorem stripLetters_of_numsShape {t : List Char} (h : NumsShape t) : stripLetters t = t := by
  obtain ⟨ds, hds, h1, rfl | ⟨es, hes, h2, rfl⟩⟩ := h
  · exact stripLetters_of_digits h1
  · rw [stripLetters_append, stripLetters_of_digits h1]
    have hc : stripLetters ('.' :: es) = '.' :: stripLetters es := by
      simp [stripLetters]
    rw [hc, stripLetters_of_digits h2]

theorem stripped_match_parses {out g : List Char} (h : searchVersion out = some g)
    (hu : '_' ∉ g) : ∃ q, pyFloat (stripLetters g) = some q := by
  obtain ⟨t, s, rfl, hma⟩ := searchVersion_shape h
  rw [stripLetters_append, stripLetters_versionLiteral]
  rcases matchAfterLiteral_shape hma with hshape | ⟨c, t', hw, rfl, hshape⟩
  · rw [stripLetters_of_numsShape hshape]
    have := @pyFloat_of_numsShape [] t (Or.inl rfl) hshape
    simpa using this
  · simp only [isWordChar, Bool.or_eq_true, decide_eq_true_eq] at hw
    rcases hw with (ha | hd) | hund
    · have hc : stripLetters (c :: t') = stripLetters t' := by
        simp [stripLetters, ha]
      rw [hc, stripLetters_of_numsShape hshape]
      have := @pyFloat_of_numsShape [] t' (Or.inl rfl) hshape
      simpa using this
    · have hc : stripLetters (c :: t') = c :: stripLetters t' := by
        simp [stripLetters, isAlpha_eq_false_of_isDigit hd]
      rw [hc, stripLetters_of_numsShape hshape]
      have := @pyFloat_of_numsShape [c] t' (Or.inr ⟨c, rfl, hd⟩) hshape
      simpa using this
    · exact absurd (by simp [hund] : ('_' : Char) ∈ versionLiteral ++ c :: t') hu

/-! ### The copyright-date fallback -/

theorem copyrightMatchAt_shape {s : List Char} (h : copyrightMatchAt s = true) :
    ∃ a b c d e tail, s = copyrightLiteral ++
        (a :: b :: c :: d :: '-' :: '2' :: '0' :: '2' :: e :: tail) ∧
      a.isDigit = true ∧ b.isDigit = true ∧ c.isDigit = true ∧ d.isDigit = true ∧
      e.isDigit = true := by
  unfold copyrightMatchAt at h
  rw [Bool.and_eq_true] at h
  obtain ⟨suf, hsuf⟩ := exists_of_isPrefixOf h.1
  have hm := h.2
  rw [hsuf, List.drop_left] at hm
  rcases suf with _ | ⟨a, _ | ⟨b, _ | ⟨c, _ | ⟨d, _ | ⟨h', _ | ⟨x, _ | ⟨y, _ | ⟨z, _ |
    ⟨e, tail⟩⟩⟩⟩⟩⟩⟩⟩⟩ <;> simp only [] at hm
  · exact absurd hm (by simp)
  · exact absurd hm (by simp)
  · exact absurd hm (by simp)
  · exact absurd hm (by simp)
  · exact absurd hm (by simp)
  · exact absurd hm (by simp)
  · exact absurd hm (by simp)
  · exact absurd hm (by simp)
  · exact absurd hm (by simp)
  · simp only [Bool.and_eq_true, decide_eq_true_eq] at hm
    obtain ⟨⟨⟨⟨⟨⟨⟨⟨ha, hb⟩, hc⟩, hd⟩, hh⟩, hx⟩, hy⟩, hz⟩, he⟩ := hm
    subst hh hx hy hz
    exact ⟨a, b, c, d, e, tail, hsuf, ha, hb, hc, hd, he⟩

theorem copyrightMatchAt_of_shape {a b c d e : Char} {tail : List Char}
    (ha : a.isDigit = true) (hb : b.isDigit = true) (hc : c.isDigit = true)
    (hd : d.isDigit = true) (he : e.isDigit = true) :
    copyrightMatchAt (copyrightLiteral ++
      (a :: b :: c :: d :: '-' :: '2' :: '0' :: '2' :: e :: tail)) = true := by
  unfold copyrightMatchAt
  rw [Bool.and_eq_true]
  refine ⟨isPrefixOf_append_self _ _, ?_⟩
  rw [List.drop_left]
  simp [ha, hb, hc, hd, he]

theorem copyrightSearch_iff (out : List Char) :
    copyrightSearch out = true ↔
      ∃ p a b c d e s, out = p ++ (copyrightLiteral ++
          (a :: b :: c :: d :: '-' :: '2' :: '0' :: '2' :: e :: s)) ∧
        a.isDigit = true ∧ b.isDigit = true ∧ c.isDigit = true ∧ d.isDigit = true ∧
        e.isDigit = true := by
  constructor
  · intro h
    induction out with
    | nil => simp [copyrightSearch] at h
    | cons c0 rest ih =>
        rw [copyrightSearch, Bool.or_eq_true] at h
        rcases h with h | h
        · obtain ⟨a, b, c, d, e, tail, hsuf, ha, hb, hc, hd, he⟩ := copyrightMatchAt_shape h
          exact ⟨[], a, b, c, d, e, tail, by rw [List.nil_append, hsuf], ha, hb, hc, hd, he⟩
        · obtain ⟨p, a, b, c, d, e, s, hsuf, ha, hb, hc, hd, he⟩ := ih h
          exact ⟨c0 :: p, a, b, c, d, e, s, by rw [List.cons_append, hsuf], ha, hb, hc, hd, he⟩
  · rintro ⟨p, a, b, c, d, e, s, rfl, ha, hb, hc, hd, he⟩
    induction p with
    | nil =>
        rw [List.nil_append]
        have hcons : copyrightLiteral ++
            (a :: b :: c :: d :: '-' :: '2' :: '0' :: '2' :: e :: s) =
            'C' :: ("opyright (c) ".data ++
              (a :: b :: c :: d :: '-' :: '2' :: '0' :: '2' :: e :: s)) := rfl
        rw [hcons, copyrightSearch, ← hcons, Bool.or_eq_true]
        exact Or.inl (copyrightMatchAt_of_shape ha hb hc hd he)
    | cons q p' ih =>
        rw [List.cons_append, copyrightSearch, Bool.or_eq_true]
        exact Or.inr ih

theorem versionCheckOutput_eq_of_no_match {out : List Char} (h : searchVersion out = none) :
    versionCheckOutput out = if copyrightSearch out then some true else some false := by
  unfold versionCheckOutput
  rw [h]

/-! ### Claim theorems: version checker -/

/-- Claim C1 is refuted: with `skipCheck = true` the version check does return
`true` for every successfully produced output, but the version-query
subprocess is still spawned — `subprocess.Popen` is executed before the
`skip_version_check` test — so the claim's "without the external tool ever
being invoked / no subprocess is spawned" part is false.  At the concrete
run below the effect trace contains the spawn, and when the spawn itself
fails the call even returns `false` despite `skipCheck = true`. -/
theorem skip_check_counterexample :
    (has_correct_version true (SpawnResult.ok [] [])).2 = [Eff.spawnVersionQuery] ∧
    (has_correct_version true SpawnResult.notFound).1 = some false :=
  ⟨rfl, rfl⟩

/-- Claim C1 (amended): with `skipCheck = true` the version-query subprocess
is still spawned; if the spawn succeeds the result is `true` regardless of
the output content, and if the spawn fails the result is `false`. -/
theorem skip_check_behaviour (stdout stderr : List Char) :
    has_correct_version true (SpawnResult.ok stdout stderr) =
      (some true, [Eff.spawnVersionQuery]) ∧
    has_correct_version true SpawnResult.notFound =
      (some false, [Eff.spawnVersionQuery]) :=
  ⟨rfl, rfl⟩

/-- Claim C10: when the version-query spawn fails (the tool cannot be
located/executed), the check returns the not-found `false` result — an
ordinary return value, not an uncaught exception — independent of the
`skip_version_check` input. -/
theorem version_check_tool_not_found (skip_version_check : Bool) :
    has_correct_version skip_version_check SpawnResult.notFound =
      (some false, [Eff.spawnVersionQuery]) := by
  cases skip_version_check <;> rfl

/-- Claim C3: for an output whose leftmost version-pattern match is a banner
`ffmpeg version <optional letter><major>.<minor>` (formalised as the output
beginning with the banner, with whatever follows not extending the minor
digit run), the check with `skipCheck = false` returns compatible exactly
when the decimal value `major.minor` is at least `4.2`. -/
theorem version_banner_compatibility (stdout stderr : List Char) (optL : Option Char)
    (majDs minDs rest : List Char)
    (hL : ∀ L ∈ optL, L.isAlpha = true)
    (hmaj : majDs ≠ []) (hmajd : ∀ c ∈ majDs, c.isDigit = true)
    (hmin : minDs ≠ []) (hmind : ∀ c ∈ minDs, c.isDigit = true)
    (hrest : ∀ c, rest.head? = some c → c.isDigit = false)
    (hout : stdout ++ stderr =
      versionLiteral ++ (optL.toList ++ (majDs ++ '.' :: (minDs ++ rest)))) :
    (has_correct_version false (SpawnResult.ok stdout stderr)).1 =
      some (decide ((42 : ℚ) / 10 ≤ (digitsVal majDs : ℚ) +
        (digitsVal minDs : ℚ) / 10 ^ minDs.length)) := by
  show versionCheckOutput (stdout ++ stderr) = _
  rw [hout]
  exact versionCheckOutput_banner hL hmaj hmajd hmin hmind hrest

/-- Witness for C3 at the banner `ffmpeg version n4.3` (4.3 ≥ 4.2, so the
check must report compatible). -/
theorem version_banner_compatibility_witness :
    (has_correct_version false (SpawnResult.ok "ffmpeg version n4.3".data [])).1 =
      some true := by
  have h := version_banner_compatibility "ffmpeg version n4.3".data [] (some 'n')
    ['4'] ['3'] []
    (by intro L hL; simp at hL; rw [← hL]; decide)
    (by decide) (by decide) (by decide) (by decide)
    (by intro c hc; simp at hc)
    (by decide)
  rw [h, show digitsVal ['4'] = 4 from by decide, show digitsVal ['3'] = 3 from by decide]
  norm_num

/-- Claim C4 is refuted: the claim says the stripped match always parses
without error, but on the output `ffmpeg version _4.3` the pattern matches
(the `\w?` consumes the underscore), letter stripping leaves `"  _4.3"`,
and Python `float` raises `ValueError` on the leading underscore — the
modelled check crashes (`none`). -/
theorem version_parse_crash_counterexample :
    (has_correct_version false (SpawnResult.ok "ffmpeg version _4.3".data [])).1 =
      none := by decide

/-- Claim C4 (amended): whenever the version pattern matches and the matched
substring does not contain an underscore (the one `\w` character that both
survives the letter stripping and is not a digit), the stripped substring
parses as a number without error, so the numeric comparison step cannot
fail. -/
theorem version_parse_safe_without_underscore (stdout stderr g : List Char)
    (h : searchVersion (stdout ++ stderr) = some g) (hu : '_' ∉ g) :
    ∃ b, (has_correct_version false (SpawnResult.ok stdout stderr)).1 = some b := by
  obtain ⟨q, hq⟩ := stripped_match_parses h hu
  show ∃ b, versionCheckOutput (stdout ++ stderr) = some b
  rw [versionCheckOutput_eq_of_search h, hq]
  rcases lt_or_le q ((42 : ℚ) / 10) with hlt | hle
  · exact ⟨false, by simp [hlt]⟩
  · exact ⟨true, by simp [not_lt.mpr hle]⟩

/-- Witness for the amended C4 at the output `ffmpeg version 4.3`. -/
theorem version_parse_safe_without_underscore_witness :
    ∃ b, (has_correct_version false (SpawnResult.ok "ffmpeg version 4.3".data [])).1 =
      some b :=
  version_parse_safe_without_underscore "ffmpeg version 4.3".data []
    "ffmpeg version 4.3".data (by decide) (by decide)

/-- Claim C9: when the version pattern does not match anywhere in the output
(`skipCheck = false`): if the output contains a copyright token
`Copyright (c) DDDD-202D` anywhere, the check returns compatible (`true`);
if it contains no such token either, the check returns the undetermined
result, which is `false`. -/
theorem version_fallback_copyright (stdout stderr : List Char)
    (h : searchVersion (stdout ++ stderr) = none) :
    ((∃ p a b c d e s, stdout ++ stderr = p ++ (copyrightLiteral ++
          (a :: b :: c :: d :: '-' :: '2' :: '0' :: '2' :: e :: s)) ∧
        a.isDigit = true ∧ b.isDigit = true ∧ c.isDigit = true ∧ d.isDigit = true ∧
        e.isDigit = true) →
      (has_correct_version false (SpawnResult.ok stdout stderr)).1 = some true) ∧
    ((¬ ∃ p a b c d e s, stdout ++ stderr = p ++ (copyrightLiteral ++
          (a :: b :: c :: d :: '-' :: '2' :: '0' :: '2' :: e :: s)) ∧
        a.isDigit = true ∧ b.isDigit = true ∧ c.isDigit = true ∧ d.isDigit = true ∧
        e.isDigit = true) →
      (has_correct_version false (SpawnResult.ok stdout stderr)).1 = some false) := by
  constructor
  · intro hex
    show versionCheckOutput (stdout ++ stderr) = some true
    rw [versionCheckOutput_eq_of_no_match h,
      if_pos ((copyrightSearch_iff (stdout ++ stderr)).mpr hex)]
  · intro hnex
    show versionCheckOutput (stdout ++ stderr) = some false
    rw [versionCheckOutput_eq_of_no_match h, if_neg]
    intro hcs
    exact hnex ((copyrightSearch_iff (stdout ++ stderr)).mp hcs)

/-- Witness for C9 at the output `Copyright (c) 2015-2021` (no version
banner, copyright token present, so the check must report compatible). -/
theorem version_fallback_copyright_witness :
    (has_correct_version false
      (SpawnResult.ok "Copyright (c) 2015-2021".data [])).1 = some true :=
  (version_fallback_copyright "Copyright (c) 2015-2021".data [] (by decide)).1
    ⟨[], '2', '0', '1', '5', '1', [], by decide, by decide, by decide, by decide,
      by decide, by decide⟩

/-! ### Claim theorems: conversion driver -/

/-- Claim C7: for every recognized (or defaulted) format, the argument
vector handed to the external tool is exactly, in order: `-i`, the source
path, the format's codec arguments, `-abr true`, the format's quality
arguments (`ogg` → `-q:a 5`, `m4a` → none, every other format → `-q:a 0`),
`-v debug`, and the destination path. -/
theorem convert_argument_vector (src dst : String) (fp : Option String) (proc : ProcResult) :
    (convert src dst fp none proc).spawns =
      [Eff.spawnConvert (fp.getD "ffmpeg")
        ["-i", src, "-codec:a", "libmp3lame", "-abr", "true", "-q:a", "0", "-v", "debug", dst]] ∧
    (convert src dst fp (some "mp3") proc).spawns =
      [Eff.spawnConvert (fp.getD "ffmpeg")
        ["-i", src, "-codec:a", "libmp3lame", "-abr", "true", "-q:a", "0", "-v", "debug", dst]] ∧
    (convert src dst fp (some "flac") proc).spawns =
      [Eff.spawnConvert (fp.getD "ffmpeg")
        ["-i", src, "-codec:a", "flac", "-abr", "true", "-q:a", "0", "-v", "debug", dst]] ∧
    (convert src dst fp (some "ogg") proc).spawns =
      [Eff.spawnConvert (fp.getD "ffmpeg")
        ["-i", src, "-codec:a", "libvorbis", "-abr", "true", "-q:a", "5", "-v", "debug", dst]] ∧
    (convert src dst fp (some "opus") proc).spawns =
      [Eff.spawnConvert (fp.getD "ffmpeg")
        (["-i", src] ++ (if pyEndsWith src ".opus" then ["-vn", "-c:a", "copy"]
          else ["-c:a", "libopus"]) ++ ["-abr", "true", "-q:a", "0", "-v", "debug", dst])] ∧
    (convert src dst fp (some "m4a") proc).spawns =
      [Eff.spawnConvert (fp.getD "ffmpeg")
        ["-i", src, "-codec:a", "aac", "-vn", "-abr", "true", "-v", "debug", dst]] ∧
    (convert src dst fp (some "wav") proc).spawns =
      [Eff.spawnConvert (fp.getD "ffmpeg")
        ["-i", src, "-abr", "true", "-q:a", "0", "-v", "debug", dst]] := by
  refine ⟨?_, ?_, ?_, ?_, ?_, ?_, ?_⟩ <;>
    cases proc <;>
    by_cases hcase : pyEndsWith src ".opus" <;>
    simp [convert, selectFormatCommand, formatsLookup, outputQualityCommand, hcase]

/-- Claim C6: for requested format `opus`, a source path already ending in
`.opus` yields the stream-copy codec arguments `-vn -c:a copy` (no
re-encode, the opus encoder is not selected), and any other source path
yields the opus encoder arguments `-c:a libopus`. -/
theorem convert_opus_stream_copy (src dst : String) (fp : Option String) (proc : ProcResult) :
    (pyEndsWith src ".opus" = true →
      formatsLookup src "opus" = some ["-vn", "-c:a", "copy"] ∧
      (convert src dst fp (some "opus") proc).spawns =
        [Eff.spawnConvert (fp.getD "ffmpeg")
          ["-i", src, "-vn", "-c:a", "copy", "-abr", "true", "-q:a", "0", "-v", "debug", dst]]) ∧
    (pyEndsWith src ".opus" = false →
      formatsLookup src "opus" = some ["-c:a", "libopus"] ∧
      (convert src dst fp (some "opus") proc).spawns =
        [Eff.spawnConvert (fp.getD "ffmpeg")
          ["-i", src, "-c:a", "libopus", "-abr", "true", "-q:a", "0", "-v", "debug", dst]]) := by
  constructor
  · intro hcase
    refine ⟨by simp [formatsLookup, hcase], ?_⟩
    cases proc <;>
      simp [convert, selectFormatCommand, formatsLookup, outputQualityCommand, hcase]
  · intro hcase
    refine ⟨by simp [formatsLookup, hcase], ?_⟩
    cases proc <;>
      simp [convert, selectFormatCommand, formatsLookup, outputQualityCommand, hcase]

/-- Witness for C6 at the source paths `/music/track.opus` (stream copy)
and `/music/track.webm` (opus encoder). -/
theorem convert_opus_stream_copy_witness :
    (convert "/music/track.opus" "/out.opus" none (some "opus")
        (ProcResult.finished [] [] 0)).spawns =
      [Eff.spawnConvert "ffmpeg"
        ["-i", "/music/track.opus", "-vn", "-c:a", "copy", "-abr", "true", "-q:a", "0",
          "-v", "debug", "/out.opus"]] ∧
    (convert "/music/track.webm" "/out.opus" none (some "opus")
        (ProcResult.finished [] [] 0)).spawns =
      [Eff.spawnConvert "ffmpeg"
        ["-i", "/music/track.webm", "-c:a", "libopus", "-abr", "true", "-q:a", "0",
          "-v", "debug", "/out.opus"]] :=
  ⟨((convert_opus_stream_copy "/music/track.opus" "/out.opus" none
      (ProcResult.finished [] [] 0)).1 (by decide)).2,
   ((convert_opus_stream_copy "/music/track.webm" "/out.opus" none
      (ProcResult.finished [] [] 0)).2 (by decide)).2⟩

/-- Claim C5: a non-null requested format outside the six recognized ones
makes `convert` fail with a `KeyError` for that exact key before anything
is spawned or printed — it never falls back to the mp3 profile — while the
null/unset format case does default to the mp3 profile. -/
theorem convert_unknown_format_fails_fast (src dst : String) (fp : Option String)
    (fmt : String) (proc : ProcResult)
    (h : fmt ∉ (["mp3", "flac", "ogg", "opus", "m4a", "wav"] : List String)) :
    convert src dst fp (some fmt) proc =
      { result := Except.error (PyExc.keyError fmt), stderrPrints := [], spawns := [] } ∧
    (convert src dst fp none proc).spawns =
      [Eff.spawnConvert (fp.getD "ffmpeg")
        ["-i", src, "-codec:a", "libmp3lame", "-abr", "true", "-q:a", "0", "-v", "debug", dst]] := by
  simp only [List.mem_cons, List.not_mem_nil, or_false, not_or] at h
  obtain ⟨h1, h2, h3, h4, h5, h6⟩ := h
  constructor
  · have hlook : formatsLookup src fmt = none := by
      simp [formatsLookup, h1, h2, h3, h4, h5, h6]
    simp [convert, selectFormatCommand, hlook]
  · cases proc <;>
      simp [convert, selectFormatCommand, formatsLookup, outputQualityCommand]

/-- Witness for C5 at the unrecognized format `aac`. -/
theorem convert_unknown_format_fails_fast_witness :
    convert "/a/in.webm" "/a/out.mp3" none (some "aac") (ProcResult.finished [] [] 0) =
      { result := Except.error (PyExc.keyError "aac"), stderrPrints := [], spawns := [] } :=
  (convert_unknown_format_fails_fast "/a/in.webm" "/a/out.mp3" none "aac"
    (ProcResult.finished [] [] 0) (by decide)).1

/-- Claim C2 is refuted: when the conversion subprocess cannot be spawned,
`convert` has no `try`/`except`, so the `FileNotFoundError` escapes to the
caller — at the concrete request below the outcome is the propagated
exception, not a structured success-flag-false result. -/
theorem convert_spawn_failure_counterexample :
    (convert "/a/song.webm" "/a/song.mp3" none none ProcResult.spawnFailure).result =
      Except.error PyExc.fileNotFoundError ∧
    (convert "/a/song.webm" "/a/song.mp3" none none ProcResult.spawnFailure).result ≠
      Except.ok false := by
  refine ⟨rfl, ?_⟩
  intro hc
  rw [show (convert "/a/song.webm" "/a/song.mp3" none none ProcResult.spawnFailure).result =
    Except.error PyExc.fileNotFoundError from rfl] at hc
  exact absurd hc (by simp)

/-- Claim C2 (amended): for every conversion request with a recognized (or
defaulted) format whose tool executable cannot be spawned, `convert`
propagates the spawn exception (`FileNotFoundError`) to the caller; only
the version checker converts a failed spawn into a `false` result. -/
theorem convert_spawn_failure_raises (src dst : String) (fp : Option String)
    (fmt : Option String) (cmd : List String)
    (h : selectFormatCommand src fmt = some cmd) :
    (convert src dst fp fmt ProcResult.spawnFailure).result =
      Except.error PyExc.fileNotFoundError := by
  unfold convert
  rw [h]

/-- Witness for the amended C2 at a default-format request. -/
theorem convert_spawn_failure_raises_witness :
    (convert "/x/in.webm" "/x/out.mp3" (some "/usr/bin/ffmpeg") none
        ProcResult.spawnFailure).result = Except.error PyExc.fileNotFoundError :=
  convert_spawn_failure_raises "/x/in.webm" "/x/out.mp3" (some "/usr/bin/ffmpeg") none
    ["-codec:a", "libmp3lame"] rfl

/-- Claim C8: for every completed conversion subprocess, `convert` returns
success exactly when the exit code is `0`, regardless of the captured
output; the subprocess is spawned exactly once (no retry); on exit code
`0` nothing is printed, and on a non-zero exit code the single printed
diagnostic message is `failureMessage`, which contains the exit code, the
space-joined argument vector, and the captured combined output as
contiguous substrings. -/
theorem convert_exit_code_outcome (src dst : String) (fp : Option String)
    (fmt : Option String) (cmd : List String)
    (h : selectFormatCommand src fmt = some cmd)
    (stdout stderr : List UInt8) (returncode : Int) :
    (convert src dst fp fmt (ProcResult.finished stdout stderr returncode)).result =
      Except.ok (decide (returncode = 0)) ∧
    ∃ args out,
      out = (if !stdout.isEmpty || !stderr.isEmpty then pyBytesRepr (stdout ++ stderr)
             else []) ∧
      (convert src dst fp fmt (ProcResult.finished stdout stderr returncode)).spawns =
        [Eff.spawnConvert (fp.getD "ffmpeg") args] ∧
      (returncode = 0 →
        (convert src dst fp fmt
          (ProcResult.finished stdout stderr returncode)).stderrPrints = []) ∧
      (returncode ≠ 0 →
        (convert src dst fp fmt
          (ProcResult.finished stdout stderr returncode)).stderrPrints =
          [failureMessage returncode args out]) ∧
      (toString returncode).data <:+: failureMessage returncode args out ∧
      (String.intercalate " " args).data <:+: failureMessage returncode args out ∧
      out <:+: failureMessage returncode args out := by
  have hred : convert src dst fp fmt (ProcResult.finished stdout stderr returncode) =
      { result := Except.ok (if returncode ≠ 0 then false else true),
        stderrPrints :=
          if returncode ≠ 0 then
            [failureMessage returncode
              (["-i", src] ++ cmd ++ ["-abr", "true"] ++ outputQualityCommand fmt ++
                ["-v", "debug", dst])
              (if !stdout.isEmpty || !stderr.isEmpty then pyBytesRepr (stdout ++ stderr)
               else [])]
          else [],
        spawns := [Eff.spawnConvert (fp.getD "ffmpeg")
          (["-i", src] ++ cmd ++ ["-abr", "true"] ++ outputQualityCommand fmt ++
            ["-v", "debug", dst])] } := by
    unfold convert
    rw [h]
  refine ⟨?_, ["-i", src] ++ cmd ++ ["-abr", "true"] ++ outputQualityCommand fmt ++
      ["-v", "debug", dst],
    (if !stdout.isEmpty || !stderr.isEmpty then pyBytesRepr (stdout ++ stderr) else []),
    rfl, ?_, ?_, ?_, ?_, ?_, ?_⟩
  · rw [hred]
    by_cases hrc : returncode = 0
    · simp [hrc]
    · simp [hrc]
  · rw [hred]
  · intro hrc
    rw [hred]
    simp [hrc]
  · intro hrc
    rw [hred]
    simp [hrc]
  · exact ⟨"ffmpeg returned an error (".data,
      ")\nffmpeg arguments: \"".data ++
        (String.intercalate " " (["-i", src] ++ cmd ++ ["-abr", "true"] ++
          outputQualityCommand fmt ++ ["-v", "debug", dst])).data ++
        "\"\nffmpeg gave this output:\n=====\n".data ++
        (if !stdout.isEmpty || !stderr.isEmpty then pyBytesRepr (stdout ++ stderr)
         else []) ++ "\n=====\n".data,
      by simp [failureMessage, List.append_assoc]⟩
  · exact ⟨"ffmpeg returned an error (".data ++ (toString returncode).data ++
        ")\nffmpeg arguments: \"".data,
      "\"\nffmpeg gave this output:\n=====\n".data ++
        (if !stdout.isEmpty || !stderr.isEmpty then pyBytesRepr (stdout ++ stderr)
         else []) ++ "\n=====\n".data,
      by simp [failureMessage, List.append_assoc]⟩
  · exact ⟨"ffmpeg returned an error (".data ++ (toString returncode).data ++
        ")\nffmpeg arguments: \"".data ++
        (String.intercalate " " (["-i", src] ++ cmd ++ ["-abr", "true"] ++
          outputQualityCommand fmt ++ ["-v", "debug", dst])).data ++
        "\"\nffmpeg gave this output:\n=====\n".data,
      "\n=====\n".data,
      by simp [failureMessage, List.append_assoc]⟩

/-- Witness for C8: exit code 17 with captured output yields the failure
result, and exit code 0 yields success. -/
theorem convert_exit_code_outcome_witness :
    (convert "/w/in.webm" "/w/out.mp3" none none
        (ProcResult.finished [120] [] 17)).result = Except.ok false ∧
    (convert "/w/in.webm" "/w/out.mp3" none none
        (ProcResult.finished [120] [] 0)).result = Except.ok true := by
  constructor
  · have h := (convert_exit_code_outcome "/w/in.webm" "/w/out.mp3" none none
      ["-codec:a", "libmp3lame"] rfl [120] [] 17).1
    simpa using h
  · have h := (convert_exit_code_outcome "/w/in.webm" "/w/out.mp3" none none
      ["-codec:a", "libmp3lame"] rfl [120] [] 0).1
    simpa using h
